import Mathlib

/-!
# Verification of the PL/I preprocessor core (RUST-PLI-PREPROCESSOR)

Shallow embedding of the directive-aware lexer, the expression parser and the
block/conditional validators of the repository, together with proofs about
them.

Embedded source files:
* `pli_preprocessor/src/modules/parser.rs`
  (`parse_control_structure`, `parse_expression`, `validate_expression`)
* `pli_preprocessor/src/modules/tokenizer/{tokenizer_logic,string_literal,
  directive,special_char,token}.rs`
  (`tokenize_pli`, `has_tokenizer_error`, `handle_string_literal`,
  `handle_directive`, `handle_special_characters`, `finalize_token`,
  `get_directive_category`)
* `pli_tokenizer/src/modules/validator.rs` (`validate_syntax`,
  `is_valid_directive`)

Modelling conventions: Rust `String`/`&str` become Lean `String`; the
character iterators become `List Char` consumed from the front; Rust `Vec`
used as a stack (push/pop at the back) becomes a Lean `List` used as a stack
(push/pop at the front), which is behaviour-preserving because only the stack
ends are ever accessed; `Result<T, String>` becomes `Except String T`.
`char::is_alphanumeric` / `char::is_whitespace` / `to_uppercase` are modelled
by `Char.isAlphanum` / `Char.isWhitespace` / `Char.toUpper` (the ASCII
fragment, used consistently on both sides of every comparison).
-/

/-! ## Data model (`tokenizer/token.rs`) -/

/-- `TokenCategory` from `token.rs`: general categories for tokens. -/
inductive TokenCategory where
  | Directive
  | Identifier
  | Literal
  | Operator
  | Separator
  | Unknown
deriving DecidableEq, Repr

/-- `DirectiveCategory` from `token.rs`: specific categories for directives. -/
inductive DirectiveCategory where
  | ControlFlow
  | MacroHandling
  | Conditional
  | Comment
  | Other
deriving DecidableEq, Repr

/-- `Token` from `token.rs`: raw text, general category, optional directive
category. -/
structure Token where
  value : String
  category : TokenCategory
  directiveCategory : Option DirectiveCategory
deriving DecidableEq, Repr

/-- The single-quote character, written by code point to keep the sources
readable. -/
def quoteChar : Char := Char.ofNat 39

/-- A one-character string holding the quote. -/
def quoteStr : String := String.singleton quoteChar

/-! ## Expression parser (`parser.rs`, `parse_expression`) -/

/-- The operator-precedence table of `parse_expression` (`parser.rs` lines
200-207): `*`, `/` bind at 3, `+`, `-` at 2, `AND`, `OR` at 1; every other
string is absent from the table. -/
def precedence (t : String) : Option Nat :=
  if t = "*" then some 3
  else if t = "/" then some 3
  else if t = "+" then some 2
  else if t = "-" then some 2
  else if t = "AND" then some 1
  else if t = "OR" then some 1
  else none

/-- Rust's `Option` ordering (`None < Some _`) specialised to `>=`, as used in
`precedence.get(op) >= precedence.get(t)` (`parser.rs` line 214). -/
def optionPrecGe : Option Nat → Option Nat → Bool
  | none, none => true
  | none, some _ => false
  | some _, none => true
  | some a, some b => b ≤ a

/-- The inner `while` of the operator arm of `parse_expression`: pop operators
whose precedence is `>=` the current operator's to the output. -/
def popGe (out ops : List String) (t : String) : List String × List String :=
  match ops with
  | [] => (out, [])
  | op :: rest =>
    if optionPrecGe (precedence op) (precedence t) then popGe (out ++ [op]) rest t
    else (out, op :: rest)

/-- The `")"` arm of `parse_expression`: pop operators to the output until a
`"("` is found (and discarded) or the stack is exhausted. -/
def popUntilParen (out ops : List String) : List String × List String :=
  match ops with
  | [] => (out, [])
  | op :: rest => if op = "(" then (out, rest) else popUntilParen (out ++ [op]) rest

/-- The final drain of `parse_expression` (`parser.rs` lines 235-240): pop all
remaining operators; a leftover `"("` or `")"` is a mismatched-parentheses
error. -/
def drainOps (out ops : List String) : Except String (List String) :=
  match ops with
  | [] => .ok out
  | op :: rest =>
    if op = "(" ∨ op = ")" then .error "Mismatched parentheses in expression."
    else drainOps (out ++ [op]) rest

/-- The token loop of `parse_expression` (`parser.rs` lines 209-233).  The
match arms are tried in source order: all-alphanumeric operand first, then
known operator, then `"("`, then `")"`, otherwise an invalid-token error. -/
def parseExpressionLoop : List String → List String → List String → Except String (List String)
  | [], out, ops => drainOps out ops
  | t :: ts, out, ops =>
    if t.data.all Char.isAlphanum then parseExpressionLoop ts (out ++ [t]) ops
    else if (precedence t).isSome then
      parseExpressionLoop ts (popGe out ops t).1 (t :: (popGe out ops t).2)
    else if t = "(" then parseExpressionLoop ts out (t :: ops)
    else if t = ")" then
      parseExpressionLoop ts (popUntilParen out ops).1 (popUntilParen out ops).2
    else .error ("Invalid token in expression: " ++ t)

/-- `parse_expression` from `parser.rs` (lines 196-243): shunting-yard
conversion of an infix token sequence to postfix (RPN). -/
def parseExpression (tokens : List String) : Except String (List String) :=
  parseExpressionLoop tokens [] []

/-! ## Expression validator (`parser.rs`, `validate_expression`) -/

/-- The `valid_operators` array of `validate_expression` (`parser.rs` line
263). -/
def validOperators : List String := ["+", "-", "*", "/", "AND", "OR"]

/-- The token loop of `validate_expression` (`parser.rs` lines 261-292),
carrying the parenthesis stack and the previous token. -/
def validateExpressionLoop : List String → List Char → Option String → Except String Unit
  | [], pstack, _ =>
    if pstack.isEmpty then .ok () else .error "Unmatched opening parenthesis"
  | t :: ts, pstack, last =>
    if t = "(" then validateExpressionLoop ts ('(' :: pstack) (some t)
    else if t = ")" then
      match pstack with
      | [] => .error "Unmatched closing parenthesis"
      | _ :: rest => validateExpressionLoop ts rest (some t)
    else if validOperators.contains t then
      match last with
      | some l =>
        if validOperators.contains l ∨ l = "(" then
          .error ("Invalid operator placement: " ++ quoteStr ++ t ++ quoteStr)
        else validateExpressionLoop ts pstack (some t)
      | none => validateExpressionLoop ts pstack (some t)
    else if t.data.all Char.isAlphanum then validateExpressionLoop ts pstack (some t)
    else .error ("Invalid token in expression: " ++ quoteStr ++ t ++ quoteStr)

/-- `validate_expression` from `parser.rs` (lines 261-292). -/
def validateExpression (tokens : List String) : Except String Unit :=
  validateExpressionLoop tokens [] none

/-! ## Control-structure validator (`parser.rs`, `parse_control_structure`) -/

/-- The token loop of `parse_control_structure` (`parser.rs` lines 159-179):
push on `DO`, pop (and require a `DO`) on `END`; a failed pop is
"Unmatched END", a non-empty final stack is "Unclosed DO". -/
def parseControlStructureLoop : List String → List String → Except String Unit
  | [], stack => if stack.isEmpty then .ok () else .error "Unclosed DO"
  | t :: ts, stack =>
    if t = "DO" then parseControlStructureLoop ts (t :: stack)
    else if t = "END" then
      match stack with
      | [] => .error "Unmatched END"
      | top :: rest =>
        if top = "DO" then parseControlStructureLoop ts rest
        else .error "Unmatched END"
    else parseControlStructureLoop ts stack

/-- `parse_control_structure` from `parser.rs` (lines 159-179). -/
def parseControlStructure (tokens : List String) : Except String Unit :=
  parseControlStructureLoop tokens []

/-! ## Conditional validator (`pli_tokenizer`, `validator.rs`) -/

/-- `is_valid_directive` from `validator.rs` (lines 93-98): the hardcoded
allow-list, consulted after uppercasing the candidate. -/
def isValidDirective (directive : String) : Bool :=
  ["%IF", "%ENDIF", "%ELSE", "%THEN", "%DO", "%END", "%SWITCH", "%CASE",
    "%DEFAULT"].contains (String.mk (directive.data.map Char.toUpper))

/-- Single-character `starts_with` on a Rust string, modelled on the
character list. -/
def strStartsWithChar (s : String) (c : Char) : Bool :=
  match s.data with
  | [] => false
  | d :: _ => d = c

/-- Single-character `ends_with` on a Rust string, modelled on the character
list. -/
def strEndsWithChar (s : String) (c : Char) : Bool :=
  match s.data.getLast? with
  | none => false
  | some d => d = c

/-- The token loop of `validate_syntax` (`validator.rs` lines 51-77): `%IF`
pushes, `%ENDIF` pops and requires a `%IF`, `%THEN` requires a `%IF` on top
of the stack, any other `%`-token must pass `is_valid_directive`, and a
non-empty final stack is an unmatched `%IF`. -/
def validateSyntaxLoop : List String → List String → Except String Unit
  | [], stack => if stack.isEmpty then .ok () else .error "Unmatched %IF found"
  | t :: ts, stack =>
    if t = "%IF" then validateSyntaxLoop ts ("%IF" :: stack)
    else if t = "%ENDIF" then
      match stack with
      | [] => .error "Unmatched %ENDIF found"
      | top :: rest =>
        if top = "%IF" then validateSyntaxLoop ts rest
        else .error "Unmatched %ENDIF found"
    else if t = "%THEN" then
      match stack with
      | [] => .error "%THEN without matching %IF"
      | top :: _ =>
        if top = "%IF" then validateSyntaxLoop ts stack
        else .error "%THEN without matching %IF"
    else if strStartsWithChar t '%' ∧ ¬ isValidDirective t then
      .error ("Invalid directive: " ++ t)
    else validateSyntaxLoop ts stack

/-- `validate_syntax` from `validator.rs` (lines 46-78): rejects an empty
token sequence outright, then runs the stack-based scan. -/
def validateSyntax (tokens : List String) : Except String Unit :=
  if tokens.isEmpty then .error "Empty token line"
  else validateSyntaxLoop tokens []

/-! ## Tokenizer (`pli_preprocessor`, `tokenizer/` modules) -/

/-- Model of Rust's `str::to_uppercase` (ASCII fragment): uppercase every
character. -/
def strToUpper (s : String) : String := String.mk (s.data.map Char.toUpper)

/-- `get_directive_category` from `tokenizer/directive.rs` (lines 30-38). -/
def getDirectiveCategory (directive : String) : DirectiveCategory :=
  if directive = "%IF" ∨ directive = "%THEN" ∨ directive = "%ELSE" ∨
      directive = "%ENDIF" then .ControlFlow
  else if directive = "%MACRO" ∨ directive = "%INCLUDE" then .MacroHandling
  else if directive = "%SWITCH" ∨ directive = "%CASE" ∨
      directive = "%EVALUATE" then .Conditional
  else if directive = "%COMMENT" then .Comment
  else .Other

/-- `finalize_token` from `tokenizer/token.rs` (lines 162-171): push the
accumulated text (verbatim, with the given category) if non-empty, and clear
the buffer. -/
def finalizeToken (currentToken : String) (tokens : List Token)
    (category : TokenCategory) : List Token :=
  if currentToken.data.isEmpty then tokens
  else tokens ++ [⟨currentToken, category, none⟩]

/-- The local `finalize_token` of `tokenizer/special_char.rs` (lines 79-88):
unlike the one in `token.rs`, it uppercases the text and always uses the
`Identifier` category. -/
def finalizeTokenUppercased (currentToken : String) (tokens : List Token) : List Token :=
  if currentToken.data.isEmpty then tokens
  else tokens ++ [⟨strToUpper currentToken, .Identifier, none⟩]

/-- `handle_special_characters` from `tokenizer/special_char.rs` (lines
40-58): flush the buffer through the uppercasing `finalize_token`, then emit
the character as an `Operator` / `Separator` / `Unknown` token.  The
character iterator parameter is unused in the source and omitted here. -/
def handleSpecialCharacters (c : Char) (currentToken : String)
    (tokens : List Token) : List Token :=
  let tokens := finalizeTokenUppercased currentToken tokens
  let category : TokenCategory :=
    if c = '=' ∨ c = '#' ∨ c = '*' then .Operator
    else if c = ';' then .Separator
    else .Unknown
  tokens ++ [⟨String.singleton c, category, none⟩]

/-- The `while let Some(&next_char) = chars.peek()` loop of
`handle_string_literal` (`string_literal.rs` lines 57-88), entered after the
opening quote was consumed.  Returns the remaining characters, the extended
token list and the (cleared) accumulation buffer. -/
def handleStringLiteralLoop : List Char → List Token → String →
    List Char × List Token × String
  | [], tokens, currentToken =>
    ([], tokens ++ [⟨currentToken, .Literal, none⟩], "")
  | c :: rest, tokens, currentToken =>
    if c = quoteChar then
      match rest with
      | r :: rest2 =>
        if r = quoteChar then
          handleStringLiteralLoop rest2 tokens
            ((currentToken.push quoteChar).push quoteChar)
        else (rest, tokens ++ [⟨currentToken.push quoteChar, .Literal, none⟩], "")
      | [] => ([], tokens ++ [⟨currentToken.push quoteChar, .Literal, none⟩], "")
    else handleStringLiteralLoop rest tokens (currentToken.push c)

/-- `handle_string_literal` from `tokenizer/string_literal.rs` (lines 40-99).
Its first step is `chars.next()`: when that character is the opening quote it
is appended to the buffer and the scan loop runs; any other character has
nevertheless been consumed and the function returns at once ("should not
happen" branch in the source). -/
def handleStringLiteral : List Char → List Token → String →
    List Char × List Token × String
  | [], tokens, currentToken => ([], tokens, currentToken)
  | c :: rest, tokens, currentToken =>
    if c = quoteChar then
      handleStringLiteralLoop rest tokens (currentToken.push quoteChar)
    else (rest, tokens, currentToken)

/-- The greedy identifier-consuming loop of `handle_directive`
(`directive.rs` lines 58-65). -/
def handleDirectiveLoop : List Char → String → List Char × String
  | [], currentToken => ([], currentToken)
  | c :: rest, currentToken =>
    if c.isAlphanum ∨ c = '_' then handleDirectiveLoop rest (currentToken.push c)
    else (c :: rest, currentToken)

/-- `handle_directive` from `tokenizer/directive.rs` (lines 51-75): append
the marker to the buffer, greedily consume identifier characters, uppercase,
classify, emit a `Directive` token and clear the buffer. -/
def handleDirective (c : Char) (chars : List Char) (currentToken : String)
    (tokens : List Token) : List Char × List Token :=
  let r := handleDirectiveLoop chars (currentToken.push c)
  let directive := strToUpper r.2
  (r.1, tokens ++ [⟨directive, .Directive, some (getDirectiveCategory directive)⟩])

/-- The character loop of `tokenize_pli` (`tokenizer_logic.rs` lines 44-80),
with an explicit fuel argument to bound the iteration count.  Every
iteration consumes at least the dispatched character, so fuel
`input.length + 1` (as supplied by `tokenizePli`) is never exhausted; the
fuel-out clause coincides with the end-of-input clause. -/
def tokenizePliFuel : Nat → List Char → List Token → String → List Token
  | 0, _, tokens, currentToken => finalizeToken currentToken tokens .Identifier
  | _ + 1, [], tokens, currentToken => finalizeToken currentToken tokens .Identifier
  | fuel + 1, c :: rest, tokens, currentToken =>
    if c.isWhitespace then
      tokenizePliFuel fuel rest (finalizeToken currentToken tokens .Identifier) ""
    else if c = quoteChar then
      tokenizePliFuel fuel (handleStringLiteral rest tokens currentToken).1
        (handleStringLiteral rest tokens currentToken).2.1
        (handleStringLiteral rest tokens currentToken).2.2
    else if c = '%' then
      tokenizePliFuel fuel (handleDirective c rest currentToken tokens).1
        (handleDirective c rest currentToken tokens).2 ""
    else if c = '=' ∨ c = '#' ∨ c = '*' ∨ c = ';' then
      tokenizePliFuel fuel rest (handleSpecialCharacters c currentToken tokens) ""
    else if c.isAlphanum ∨ c = '_' then
      tokenizePliFuel fuel rest tokens (currentToken.push c)
    else
      tokenizePliFuel fuel rest (handleSpecialCharacters c currentToken tokens) ""

/-- `tokenize_pli` from `tokenizer/tokenizer_logic.rs` (lines 37-87). -/
def tokenizePli (input : String) : List Token :=
  tokenizePliFuel (input.data.length + 1) input.data [] ""

/-- `has_tokenizer_error` from `tokenizer_logic.rs` (lines 96-100): some
token's text starts but does not end with a quote. -/
def hasTokenizerError (tokens : List Token) : Bool :=
  tokens.any fun token =>
    strStartsWithChar token.value quoteChar && !strEndsWithChar token.value quoteChar

/-! ## Spec-side predicates -/

/-- Modelled from the spec's balance invariant for the refinement claim about
`parse_control_structure`: the `DO`/`END` tokens form a properly nested
bracket sequence in the standard sense — every prefix has at least as many
`DO`s as `END`s, and the totals agree. -/
def specProperlyNestedDoEnd (ts : List String) : Prop :=
  (∀ k ≤ ts.length, (ts.take k).count "END" ≤ (ts.take k).count "DO") ∧
  ts.count "END" = ts.count "DO"

instance (ts : List String) : Decidable (specProperlyNestedDoEnd ts) := by
  unfold specProperlyNestedDoEnd; infer_instance

/-- Spec-side reading of "case-normalized to uppercase" for directive tokens:
no token text of category `Directive` contains a lowercase letter. -/
def directiveValuesUppercase (tokens : List Token) : Prop :=
  ∀ t ∈ tokens, t.category = TokenCategory.Directive →
    ∀ c ∈ t.value.data, c.isLower = false

/-! ## Claim theorems: expression parser, concrete precedence laws -/

/-- C2: `parse_expression` respects operator precedence and parenthesis
grouping: `["A","+","B","*","C"]` converts to `Ok ["A","B","C","*","+"]` and
`["(","A","+","B",")","*","C"]` converts to `Ok ["A","B","+","C","*"]`. -/
theorem parseExpression_precedence_and_grouping :
    parseExpression ["A", "+", "B", "*", "C"] = .ok ["A", "B", "C", "*", "+"] ∧
    parseExpression ["(", "A", "+", "B", ")", "*", "C"] = .ok ["A", "B", "+", "C", "*"] := by
  constructor <;> rfl

/-! ## Helper lemmas: control-structure validator -/

/-- If every prefix keeps the running `END` count below the stack reserve and
the totals balance, the scan accepts. -/
theorem pcsLoop_ok : ∀ (ts : List String) (n : Nat),
    (∀ k ≤ ts.length, (ts.take k).count "END" ≤ n + (ts.take k).count "DO") →
    ts.count "END" = n + ts.count "DO" →
    parseControlStructureLoop ts (List.replicate n "DO") = .ok () := by
  intro ts
  induction ts with
  | nil =>
    intro n _ heq
    simp at heq
    subst heq
    simp [parseControlStructureLoop, List.replicate]
  | cons t ts ih =>
    intro n hpre heq
    by_cases hDO : t = "DO"
    · subst hDO
      have hstep : parseControlStructureLoop ("DO" :: ts) (List.replicate n "DO") =
          parseControlStructureLoop ts (List.replicate (n + 1) "DO") := by
        simp [parseControlStructureLoop, List.replicate_succ]
      rw [hstep]
      apply ih (n + 1)
      · intro k hk
        have h1 := hpre (k + 1) (by simpa using Nat.succ_le_succ hk)
        simp [List.take_succ_cons, List.count_cons] at h1
        omega
      · simp [List.count_cons] at heq
        omega
    · by_cases hEND : t = "END"
      · subst hEND
        have hn : 1 ≤ n := by
          have h1 := hpre 1 (by simp)
          simp [List.take_succ_cons, List.count_cons] at h1
          omega
        obtain ⟨m, rfl⟩ : ∃ m, n = m + 1 := ⟨n - 1, by omega⟩
        have hstep : parseControlStructureLoop ("END" :: ts) (List.replicate (m + 1) "DO") =
            parseControlStructureLoop ts (List.replicate m "DO") := by
          simp [parseControlStructureLoop, List.replicate_succ]
        rw [hstep]
        apply ih m
        · intro k hk
          have h1 := hpre (k + 1) (by simpa using Nat.succ_le_succ hk)
          simp [List.take_succ_cons, List.count_cons] at h1
          omega
        · simp [List.count_cons] at heq
          omega
      · have hstep : parseControlStructureLoop (t :: ts) (List.replicate n "DO") =
            parseControlStructureLoop ts (List.replicate n "DO") := by
          simp [parseControlStructureLoop, hDO, hEND]
        rw [hstep]
        apply ih n
        · intro k hk
          have h1 := hpre (k + 1) (by simpa using Nat.succ_le_succ hk)
          simpa [List.take_succ_cons, List.count_cons, hDO, hEND] using h1
        · simpa [List.count_cons, hDO, hEND] using heq

/-- If every prefix stays within the reserve but the totals leave openers
pending, the scan reports "Unclosed DO". -/
theorem pcsLoop_unclosed : ∀ (ts : List String) (n : Nat),
    (∀ k ≤ ts.length, (ts.take k).count "END" ≤ n + (ts.take k).count "DO") →
    ts.count "END" < n + ts.count "DO" →
    parseControlStructureLoop ts (List.replicate n "DO") = .error "Unclosed DO" := by
  intro ts
  induction ts with
  | nil =>
    intro n _ hlt
    simp at hlt
    obtain ⟨m, rfl⟩ : ∃ m, n = m + 1 := ⟨n - 1, by omega⟩
    simp [parseControlStructureLoop, List.replicate_succ]
  | cons t ts ih =>
    intro n hpre hlt
    by_cases hDO : t = "DO"
    · subst hDO
      have hstep : parseControlStructureLoop ("DO" :: ts) (List.replicate n "DO") =
          parseControlStructureLoop ts (List.replicate (n + 1) "DO") := by
        simp [parseControlStructureLoop, List.replicate_succ]
      rw [hstep]
      apply ih (n + 1)
      · intro k hk
        have h1 := hpre (k + 1) (by simpa using Nat.succ_le_succ hk)
        simp [List.take_succ_cons, List.count_cons] at h1
        omega
      · simp [List.count_cons] at hlt
        omega
    · by_cases hEND : t = "END"
      · subst hEND
        have hn : 1 ≤ n := by
          have h1 := hpre 1 (by simp)
          simp [List.take_succ_cons, List.count_cons] at h1
          omega
        obtain ⟨m, rfl⟩ : ∃ m, n = m + 1 := ⟨n - 1, by omega⟩
        have hstep : parseControlStructureLoop ("END" :: ts) (List.replicate (m + 1) "DO") =
            parseControlStructureLoop ts (List.replicate m "DO") := by
          simp [parseControlStructureLoop, List.replicate_succ]
        rw [hstep]
        apply ih m
        · intro k hk
          have h1 := hpre (k + 1) (by simpa using Nat.succ_le_succ hk)
          simp [List.take_succ_cons, List.count_cons] at h1
          omega
        · simp [List.count_cons] at hlt
          omega
      · have hstep : parseControlStructureLoop (t :: ts) (List.replicate n "DO") =
            parseControlStructureLoop ts (List.replicate n "DO") := by
          simp [parseControlStructureLoop, hDO, hEND]
        rw [hstep]
        apply ih n
        · intro k hk
          have h1 := hpre (k + 1) (by simpa using Nat.succ_le_succ hk)
          simpa [List.take_succ_cons, List.count_cons, hDO, hEND] using h1
        · simpa [List.count_cons, hDO, hEND] using hlt

/-- If some prefix overdraws the reserve of pending `DO`s, the scan reports
"Unmatched END". -/
theorem pcsLoop_unmatched : ∀ (ts : List String) (n k : Nat), k ≤ ts.length →
    n + (ts.take k).count "DO" < (ts.take k).count "END" →
    parseControlStructureLoop ts (List.replicate n "DO") = .error "Unmatched END" := by
  intro ts
  induction ts with
  | nil =>
    intro n k _ hlt
    simp at hlt
  | cons t ts ih =>
    intro n k hk hlt
    cases k with
    | zero => simp at hlt
    | succ k =>
      have hk' : k ≤ ts.length := by simpa using Nat.le_of_succ_le_succ hk
      by_cases hDO : t = "DO"
      · subst hDO
        have hstep : parseControlStructureLoop ("DO" :: ts) (List.replicate n "DO") =
            parseControlStructureLoop ts (List.replicate (n + 1) "DO") := by
          simp [parseControlStructureLoop, List.replicate_succ]
        rw [hstep]
        apply ih (n + 1) k hk'
        simp [List.take_succ_cons, List.count_cons] at hlt
        omega
      · by_cases hEND : t = "END"
        · subst hEND
          cases n with
          | zero =>
            simp [parseControlStructureLoop, List.replicate]
          | succ m =>
            have hstep : parseControlStructureLoop ("END" :: ts)
                (List.replicate (m + 1) "DO") =
                parseControlStructureLoop ts (List.replicate m "DO") := by
              simp [parseControlStructureLoop, List.replicate_succ]
            rw [hstep]
            apply ih m k hk'
            simp [List.take_succ_cons, List.count_cons] at hlt
            omega
        · have hstep : parseControlStructureLoop (t :: ts) (List.replicate n "DO") =
              parseControlStructureLoop ts (List.replicate n "DO") := by
            simp [parseControlStructureLoop, hDO, hEND]
          rw [hstep]
          apply ih n k hk'
          simp [List.take_succ_cons, List.count_cons, hDO, hEND] at hlt
          omega

/-- `parse_control_structure` accepts exactly the properly nested `DO`/`END`
sequences. -/
theorem parseControlStructure_ok_iff (ts : List String) :
    parseControlStructure ts = .ok () ↔ specProperlyNestedDoEnd ts := by
  constructor
  · intro h
    by_cases hpre : ∀ k ≤ ts.length, (ts.take k).count "END" ≤ (ts.take k).count "DO"
    · refine ⟨hpre, ?_⟩
      have hle := hpre ts.length le_rfl
      simp [List.take_length] at hle
      by_contra hne
      have hlt : ts.count "END" < ts.count "DO" := lt_of_le_of_ne hle hne
      have herr := pcsLoop_unclosed ts 0 (by simpa using hpre) (by simpa using hlt)
      rw [parseControlStructure] at h
      simp [List.replicate] at herr
      rw [herr] at h
      exact absurd h (by simp)
    · push_neg at hpre
      obtain ⟨k, hk, hklt⟩ := hpre
      have herr := pcsLoop_unmatched ts 0 k hk (by simpa using hklt)
      rw [parseControlStructure] at h
      simp [List.replicate] at herr
      rw [herr] at h
      exact absurd h (by simp)
  · rintro ⟨hpre, heq⟩
    have hok := pcsLoop_ok ts 0 (by simpa using hpre) (by simpa using heq)
    rw [parseControlStructure]
    simpa [List.replicate] using hok

/-! ## Claim theorems: control-structure validator and empty input -/

/-- C3: the DO/END block validator succeeds exactly on properly nested
sequences; an `END` with no open `DO` yields the error "Unmatched END"
(e.g. on `["END"]`), and a sequence whose prefixes never overdraw but whose
openers remain pending at the end yields the error "Unclosed DO". -/
theorem parseControlStructure_nesting :
    (∀ ts, parseControlStructure ts = .ok () ↔ specProperlyNestedDoEnd ts) ∧
    parseControlStructure ["END"] = .error "Unmatched END" ∧
    ∀ ts, (∀ k ≤ ts.length, (ts.take k).count "END" ≤ (ts.take k).count "DO") →
      ts.count "END" < ts.count "DO" →
      parseControlStructure ts = .error "Unclosed DO" := by
  refine ⟨parseControlStructure_ok_iff, rfl, fun ts hpre hlt => ?_⟩
  have herr := pcsLoop_unclosed ts 0 (by simpa using hpre) (by simpa using hlt)
  rw [parseControlStructure]
  simpa [List.replicate] using herr

/-- Witness for C3: the characterisation applied at the concrete inputs
`["DO","END"]` and `["DO"]`. -/
theorem parseControlStructure_nesting_w :
    parseControlStructure ["DO", "END"] = .ok () ∧
    parseControlStructure ["DO"] = .error "Unclosed DO" := by
  constructor
  · exact (parseControlStructure_nesting.1 ["DO", "END"]).mpr (by decide)
  · exact parseControlStructure_nesting.2.2 ["DO"] (by decide) (by decide)

/-- C8 counterexample: `parse_control_structure` does not treat the empty
token sequence as an error — it returns success. -/
theorem parseControlStructure_empty_ok : parseControlStructure [] = .ok () := rfl

/-- C8 (amended): on an empty token sequence, the `%IF`/`%ENDIF` validator
`validate_syntax` returns the error "Empty token line", while the DO/END
block validator `parse_control_structure` does not special-case emptiness
and returns success. -/
theorem emptyTokens_validator_behaviour :
    validateSyntax [] = .error "Empty token line" ∧
    parseControlStructure [] = .ok () := ⟨rfl, rfl⟩

/-! ## Helper lemmas: expression parser -/

/-- The operator-popping loop only removes elements from the stack. -/
theorem popGe_subset : ∀ (out ops : List String) (t x : String),
    x ∈ (popGe out ops t).2 → x ∈ ops := by
  intro out ops
  induction ops generalizing out with
  | nil => intro t x hx; simp [popGe] at hx
  | cons op rest ih =>
    intro t x hx
    rw [popGe] at hx
    by_cases hc : optionPrecGe (precedence op) (precedence t) = true
    · rw [if_pos hc] at hx
      exact List.mem_cons_of_mem op (ih (out ++ [op]) t x hx)
    · rw [if_neg hc] at hx
      exact hx

/-- The `")"` drain loop only removes elements from the stack. -/
theorem popUntilParen_subset : ∀ (out ops : List String) (x : String),
    x ∈ (popUntilParen out ops).2 → x ∈ ops := by
  intro out ops
  induction ops generalizing out with
  | nil => intro x hx; simp [popUntilParen] at hx
  | cons op rest ih =>
    intro x hx
    rw [popUntilParen] at hx
    by_cases hc : op = "("
    · rw [if_pos hc] at hx
      exact List.mem_cons_of_mem op hx
    · rw [if_neg hc] at hx
      exact List.mem_cons_of_mem op (ih (out ++ [op]) x hx)

/-- With no parenthesis left on the operator stack, the final drain succeeds
and appends the stack to the output. -/
theorem drainOps_ok : ∀ (out ops : List String), "(" ∉ ops → ")" ∉ ops →
    drainOps out ops = .ok (out ++ ops) := by
  intro out ops
  induction ops generalizing out with
  | nil => intro _ _; simp [drainOps]
  | cons op rest ih =>
    intro hop hcp
    rw [drainOps, if_neg (by simp at hop hcp; tauto)]
    rw [ih (out ++ [op]) (fun h => hop (List.mem_cons_of_mem op h))
      (fun h => hcp (List.mem_cons_of_mem op h))]
    simp

/-- A string with an entry in the precedence table is not a parenthesis. -/
theorem precedence_isSome_ne_paren (t : String) (h : (precedence t).isSome = true) :
    t ≠ "(" ∧ t ≠ ")" := by
  constructor <;> rintro rfl <;> simp [precedence] at h

/-- The invalid-token error of `parse_expression` is never the
mismatched-parentheses error. -/
theorem invalidToken_ne_mismatched (t : String) :
    "Invalid token in expression: " ++ t ≠ "Mismatched parentheses in expression." := by
  intro h
  have h2 := congrArg String.data h
  rw [String.data_append] at h2
  have h3 := congrArg List.head? h2
  rw [List.head?_append] at h3
  have hA : ("Invalid token in expression: " : String).data.head? = some 'I' := rfl
  have hM : ("Mismatched parentheses in expression." : String).data.head? = some 'M' := rfl
  rw [hA, hM] at h3
  simp at h3

/-- Without any `"("` among the tokens or on the stack, the shunting-yard loop
can never report mismatched parentheses. -/
theorem parseExpressionLoop_no_mismatch : ∀ (ts out ops : List String),
    "(" ∉ ts → "(" ∉ ops → ")" ∉ ops →
    parseExpressionLoop ts out ops ≠ .error "Mismatched parentheses in expression." := by
  intro ts
  induction ts with
  | nil =>
    intro out ops _ hop hcp
    rw [parseExpressionLoop, drainOps_ok out ops hop hcp]
    simp
  | cons t ts ih =>
    intro out ops hts hop hcp
    have htt : t ≠ "(" := fun h => hts (h ▸ List.mem_cons_self t ts)
    have hts' : "(" ∉ ts := fun h => hts (List.mem_cons_of_mem t h)
    rw [parseExpressionLoop]
    by_cases h1 : t.data.all Char.isAlphanum = true
    · rw [if_pos h1]
      exact ih (out ++ [t]) ops hts' hop hcp
    · rw [if_neg (by simp [h1])]
      by_cases h2 : (precedence t).isSome = true
      · rw [if_pos h2]
        obtain ⟨-, htc⟩ := precedence_isSome_ne_paren t h2
        apply ih _ _ hts'
        · intro hmem
          rcases List.mem_cons.mp hmem with h | h
          · exact htt h.symm
          · exact hop (popGe_subset out ops t "(" h)
        · intro hmem
          rcases List.mem_cons.mp hmem with h | h
          · exact htc h.symm
          · exact hcp (popGe_subset out ops t ")" h)
      · rw [if_neg (by simp [h2])]
        rw [if_neg htt]
        by_cases h4 : t = ")"
        · rw [if_pos h4]
          exact ih _ _ hts' (fun h => hop (popUntilParen_subset out ops "(" h))
            (fun h => hcp (popUntilParen_subset out ops ")" h))
        · rw [if_neg h4]
          intro h
          exact invalidToken_ne_mismatched t (Except.error.inj h)

/-! ## Claim theorems: mismatched parentheses and AND/OR handling -/

/-- C4 counterexample: `["A", ")"]` contains a `")"` with no pending `"("`,
yet `parse_expression` returns a result instead of a
mismatched-parentheses error. -/
theorem parseExpression_unmatchedClose_no_error :
    parseExpression ["A", ")"] = .ok ["A"] ∧
    parseExpression ["A", ")"] ≠ .error "Mismatched parentheses in expression." := by
  refine ⟨rfl, fun h => ?_⟩
  rw [show parseExpression ["A", ")"] = .ok ["A"] from rfl] at h
  exact absurd h (by simp)

/-- C4 (amended): a `")"` with no pending `"("` silently drains the operator
stack to the output and is discarded without error (e.g. `["A", ")"]` yields
`Ok ["A"]`); the mismatched-parentheses error arises only from a `"("` that is
still on the operator stack at end of input (e.g. `["(", "A"]`) — in
particular, a token sequence with no `"("` at all can never produce it. -/
theorem parseExpression_mismatched_only_from_open :
    (∀ ts, "(" ∉ ts → parseExpression ts ≠ .error "Mismatched parentheses in expression.") ∧
    parseExpression ["A", ")"] = .ok ["A"] ∧
    parseExpression ["(", "A"] = .error "Mismatched parentheses in expression." := by
  refine ⟨fun ts hts => ?_, rfl, rfl⟩
  exact parseExpressionLoop_no_mismatch ts [] [] hts (by simp) (by simp)

/-- Witness for C4 (amended) at the concrete input `["A", ")"]`. -/
theorem parseExpression_mismatched_only_from_open_w :
    parseExpression ["A", ")"] ≠ .error "Mismatched parentheses in expression." :=
  parseExpression_mismatched_only_from_open.1 ["A", ")"] (by decide)

/-- C6: `parse_expression` holds `AND` and `OR` in its precedence table at
level 1, yet its all-alphanumeric operand arm matches them first, so they are
emitted as operands in place: `["A","AND","B","OR","C"]` yields
`Ok ["A","AND","B","OR","C"]`, not the claimed `Ok ["A","B","AND","C","OR"]`. -/
theorem parseExpression_andOr_as_operands :
    parseExpression ["A", "AND", "B", "OR", "C"] = .ok ["A", "AND", "B", "OR", "C"] ∧
    parseExpression ["A", "AND", "B", "OR", "C"] ≠ .ok ["A", "B", "AND", "C", "OR"] ∧
    precedence "AND" = some 1 ∧ precedence "OR" = some 1 ∧
    ("AND" : String).data.all Char.isAlphanum = true := by
  refine ⟨rfl, fun h => ?_, rfl, rfl, rfl⟩
  rw [show parseExpression ["A", "AND", "B", "OR", "C"] =
    .ok ["A", "AND", "B", "OR", "C"] from rfl] at h
  simp at h

/-- The operator-popping loop never removes a `"("` (its precedence lookup is
`None`), so the count of `"("` on the stack is preserved. -/
theorem popGe_count_paren : ∀ (out ops : List String) (t : String),
    (precedence t).isSome = true →
    ((popGe out ops t).2).count "(" = ops.count "(" := by
  intro out ops
  induction ops generalizing out with
  | nil => intro t _; simp [popGe]
  | cons op rest ih =>
    intro t ht
    rw [popGe]
    by_cases hc : optionPrecGe (precedence op) (precedence t) = true
    · rw [if_pos hc]
      have hop : op ≠ "(" := by
        rintro rfl
        obtain ⟨p, hp⟩ := Option.isSome_iff_exists.mp ht
        rw [show precedence "(" = none from rfl, hp] at hc
        simp [optionPrecGe] at hc
      rw [ih (out ++ [op]) t ht]
      simp [List.count_cons, hop]
    · rw [if_neg hc]

/-- Popping to a `")"` with at least one `"("` on the stack removes exactly
one `"("`. -/
theorem popUntilParen_count_paren : ∀ (out ops : List String) (m : Nat),
    ops.count "(" = m + 1 →
    ((popUntilParen out ops).2).count "(" = m := by
  intro out ops
  induction ops generalizing out with
  | nil => intro m hm; simp at hm
  | cons op rest ih =>
    intro m hm
    rw [popUntilParen]
    by_cases hc : op = "("
    · rw [if_pos hc]
      subst hc
      show rest.count "(" = m
      simp [List.count_cons] at hm
      omega
    · rw [if_neg hc]
      apply ih (out ++ [op]) m
      simpa [List.count_cons, hc] using hm

/-- Stepping the operator arm of the shunting-yard loop preserves the
`"("`-count / no-`")"` invariant of the operator stack. -/
theorem consPopGe_inv (out ops : List String) (t : String) (n : Nat)
    (ht : (precedence t).isSome = true) (hcount : ops.count "(" = n)
    (hcp : ")" ∉ ops) :
    (t :: (popGe out ops t).2).count "(" = n ∧ ")" ∉ t :: (popGe out ops t).2 := by
  obtain ⟨hto, htc⟩ := precedence_isSome_ne_paren t ht
  constructor
  · rw [List.count_cons]
    rw [popGe_count_paren out ops t ht, hcount]
    simp [hto]
  · intro hmem
    rcases List.mem_cons.mp hmem with h | h
    · exact htc h.symm
    · exact hcp (popGe_subset out ops t ")" h)

/-- One-step unfolding of the validator scan on a non-empty token list. -/
theorem validateExpressionLoop_cons (t : String) (ts : List String)
    (pstack : List Char) (last : Option String) :
    validateExpressionLoop (t :: ts) pstack last =
    (if t = "(" then validateExpressionLoop ts ('(' :: pstack) (some t)
    else if t = ")" then
      match pstack with
      | [] => .error "Unmatched closing parenthesis"
      | _ :: rest => validateExpressionLoop ts rest (some t)
    else if validOperators.contains t then
      match last with
      | some l =>
        if validOperators.contains l ∨ l = "(" then
          .error ("Invalid operator placement: " ++ quoteStr ++ t ++ quoteStr)
        else validateExpressionLoop ts pstack (some t)
      | none => validateExpressionLoop ts pstack (some t)
    else if t.data.all Char.isAlphanum then validateExpressionLoop ts pstack (some t)
    else .error ("Invalid token in expression: " ++ quoteStr ++ t ++ quoteStr)) := rfl

/-- Main simulation: whenever `validate_expression`'s scan accepts,
`parse_expression`'s scan succeeds, provided the `"("`-count of the operator
stack matches the validator's parenthesis stack and no `")"` sits on the
operator stack. -/
theorem validateOk_parseOk : ∀ (ts : List String) (pstack : List Char)
    (last : Option String) (out ops : List String),
    validateExpressionLoop ts pstack last = .ok () →
    ops.count "(" = pstack.length →
    ")" ∉ ops →
    ∃ res, parseExpressionLoop ts out ops = .ok res := by
  intro ts
  induction ts with
  | nil =>
    intro pstack last out ops hv hcount hcp
    rw [validateExpressionLoop] at hv
    by_cases hp : pstack.isEmpty = true
    · have hps : pstack = [] := List.isEmpty_iff.mp hp
      subst hps
      have hop : "(" ∉ ops := List.count_eq_zero.mp (by simpa using hcount)
      exact ⟨out ++ ops, by rw [parseExpressionLoop, drainOps_ok out ops hop hcp]⟩
    · rw [if_neg hp] at hv
      simp at hv
  | cons t ts ih =>
    intro pstack last out ops hv hcount hcp
    rw [validateExpressionLoop_cons] at hv
    rw [parseExpressionLoop]
    by_cases h1 : t = "("
    · subst h1
      rw [if_pos rfl] at hv
      rw [if_neg (by decide), if_neg (by decide), if_pos rfl]
      apply ih ('(' :: pstack) (some "(") out ("(" :: ops) hv
      · simp [List.count_cons, hcount]
      · intro hmem
        rcases List.mem_cons.mp hmem with h | h
        · exact absurd h (by decide)
        · exact hcp h
    · by_cases h2 : t = ")"
      · subst h2
        rw [if_neg (by decide), if_pos rfl] at hv
        cases pstack with
        | nil => simp at hv
        | cons p rest =>
          rw [if_neg (by decide), if_neg (by decide), if_neg (by decide), if_pos rfl]
          apply ih rest (some ")") (popUntilParen out ops).1 (popUntilParen out ops).2 hv
          · exact popUntilParen_count_paren out ops rest.length (by simpa using hcount)
          · exact fun h => hcp (popUntilParen_subset out ops ")" h)
      · by_cases h3 : validOperators.contains t = true
        · rw [if_neg h1, if_neg h2, if_pos h3] at hv
          have hv' : validateExpressionLoop ts pstack (some t) = .ok () := by
            cases last with
            | none => exact hv
            | some l =>
              have hv2 : (if validOperators.contains l = true ∨ l = "(" then
                  (Except.error ("Invalid operator placement: " ++ quoteStr ++ t ++ quoteStr) :
                    Except String Unit)
                  else validateExpressionLoop ts pstack (some t)) = .ok () := hv
              by_cases hl : validOperators.contains l = true ∨ l = "("
              · rw [if_pos hl] at hv2
                simp at hv2
              · rw [if_neg hl] at hv2
                exact hv2
          have ht6 : t = "+" ∨ t = "-" ∨ t = "*" ∨ t = "/" ∨ t = "AND" ∨ t = "OR" := by
            simpa [validOperators] using h3
          rcases ht6 with rfl | rfl | rfl | rfl | rfl | rfl
          · rw [if_neg (by decide), if_pos (by decide)]
            have hinv := consPopGe_inv out ops "+" pstack.length (by decide) hcount hcp
            exact ih pstack (some "+") _ _ hv' hinv.1 hinv.2
          · rw [if_neg (by decide), if_pos (by decide)]
            have hinv := consPopGe_inv out ops "-" pstack.length (by decide) hcount hcp
            exact ih pstack (some "-") _ _ hv' hinv.1 hinv.2
          · rw [if_neg (by decide), if_pos (by decide)]
            have hinv := consPopGe_inv out ops "*" pstack.length (by decide) hcount hcp
            exact ih pstack (some "*") _ _ hv' hinv.1 hinv.2
          · rw [if_neg (by decide), if_pos (by decide)]
            have hinv := consPopGe_inv out ops "/" pstack.length (by decide) hcount hcp
            exact ih pstack (some "/") _ _ hv' hinv.1 hinv.2
          · rw [if_pos (by decide)]
            exact ih pstack (some "AND") (out ++ ["AND"]) ops hv' hcount hcp
          · rw [if_pos (by decide)]
            exact ih pstack (some "OR") (out ++ ["OR"]) ops hv' hcount hcp
        · rw [if_neg h1, if_neg h2, if_neg h3] at hv
          by_cases h4 : t.data.all Char.isAlphanum = true
          · rw [if_pos h4] at hv
            rw [if_pos h4]
            exact ih pstack (some t) (out ++ [t]) ops hv hcount hcp
          · rw [if_neg h4] at hv
            simp at hv

/-! ## Claim theorems: parse/validate failure relation -/

/-- C5 counterexample: on `["A", ")"]` the validator fails with an unmatched
closing parenthesis while `parse_expression` succeeds, so the two do not fail
on the same token sequences. -/
theorem parseValidate_failure_iff_false :
    parseExpression ["A", ")"] = .ok ["A"] ∧
    validateExpression ["A", ")"] = .error "Unmatched closing parenthesis" ∧
    ¬ ((∃ e, parseExpression ["A", ")"] = .error e) ↔
      (∃ e, validateExpression ["A", ")"] = .error e)) := by
  refine ⟨rfl, rfl, fun hiff => ?_⟩
  obtain ⟨e, he⟩ := hiff.mpr ⟨"Unmatched closing parenthesis", rfl⟩
  rw [show parseExpression ["A", ")"] = .ok ["A"] from rfl] at he
  exact absurd he (by simp)

/-- C5 (amended): the implication holds in one direction only — whenever
`parse_expression` returns an error, `validate_expression` returns an error
on the same token sequence; the converse fails (see the counterexample
`["A", ")"]`). -/
theorem parseExpression_error_implies_validate_error :
    ∀ ts e, parseExpression ts = .error e →
      ∃ e2, validateExpression ts = .error e2 := by
  intro ts e hp
  cases hval : validateExpression ts with
  | error e2 => exact ⟨e2, rfl⟩
  | ok u =>
    cases u
    obtain ⟨res, hres⟩ := validateOk_parseOk ts [] none [] [] hval (by simp) (by simp)
    rw [show parseExpression ts = parseExpressionLoop ts [] [] from rfl, hres] at hp
    exact absurd hp (by simp)

/-- Witness for C5 (amended) at the concrete input `["&"]`, where
`parse_expression` reports an invalid token. -/
theorem parseExpression_error_implies_validate_error_w :
    ∃ e2, validateExpression ["&"] = .error e2 :=
  parseExpression_error_implies_validate_error ["&"] "Invalid token in expression: &" rfl

/-! ## Helper lemmas: conditional validator -/

/-- One-step unfolding of the conditional-validator scan on a non-empty token
list. -/
theorem validateSyntaxLoop_cons (t : String) (ts stack : List String) :
    validateSyntaxLoop (t :: ts) stack =
    (if t = "%IF" then validateSyntaxLoop ts ("%IF" :: stack)
    else if t = "%ENDIF" then
      match stack with
      | [] => .error "Unmatched %ENDIF found"
      | top :: rest =>
        if top = "%IF" then validateSyntaxLoop ts rest
        else .error "Unmatched %ENDIF found"
    else if t = "%THEN" then
      match stack with
      | [] => .error "%THEN without matching %IF"
      | top :: _ =>
        if top = "%IF" then validateSyntaxLoop ts stack
        else .error "%THEN without matching %IF"
    else if strStartsWithChar t '%' ∧ ¬ isValidDirective t then
      .error ("Invalid directive: " ++ t)
    else validateSyntaxLoop ts stack) := rfl

/-- A `%`-token failing the allow-list is rejected with the invalid-directive
error when it is the whole line. -/
theorem validateSyntax_single_invalid (t : String)
    (hs : strStartsWithChar t '%' = true) (hv : isValidDirective t = false) :
    validateSyntax [t] = .error ("Invalid directive: " ++ t) := by
  have h1 : t ≠ "%IF" := by rintro rfl; exact absurd hv (by decide)
  have h2 : t ≠ "%ENDIF" := by rintro rfl; exact absurd hv (by decide)
  have h3 : t ≠ "%THEN" := by rintro rfl; exact absurd hv (by decide)
  unfold validateSyntax
  rw [if_neg (by simp)]
  rw [validateSyntaxLoop_cons, if_neg h1, if_neg h2, if_neg h3,
    if_pos ⟨hs, by simp [hv]⟩]

/-- If the conditional-validator scan accepts, every token either avoids the
`%` prefix or passes the allow-list. -/
theorem validateSyntaxLoop_ok_all : ∀ (ts stack : List String),
    validateSyntaxLoop ts stack = .ok () →
    ∀ t ∈ ts, ¬(strStartsWithChar t '%' = true ∧ isValidDirective t = false) := by
  intro ts
  induction ts with
  | nil => intro stack _ t ht; simp at ht
  | cons u ts ih =>
    intro stack hok t ht
    rw [validateSyntaxLoop_cons] at hok
    rcases List.mem_cons.mp ht with rfl | htl
    · rintro ⟨hs, hv⟩
      have h1 : t ≠ "%IF" := by rintro rfl; exact absurd hv (by decide)
      have h2 : t ≠ "%ENDIF" := by rintro rfl; exact absurd hv (by decide)
      have h3 : t ≠ "%THEN" := by rintro rfl; exact absurd hv (by decide)
      rw [if_neg h1, if_neg h2, if_neg h3, if_pos ⟨hs, by simp [hv]⟩] at hok
      exact absurd hok (by simp)
    · by_cases h1 : u = "%IF"
      · rw [if_pos h1] at hok
        exact ih ("%IF" :: stack) hok t htl
      · by_cases h2 : u = "%ENDIF"
        · rw [if_neg h1, if_pos h2] at hok
          cases stack with
          | nil => exact absurd hok (by simp)
          | cons top rest =>
            have hok2 : (if top = "%IF" then validateSyntaxLoop ts rest
                else (Except.error "Unmatched %ENDIF found" : Except String Unit)) =
                .ok () := hok
            by_cases h4 : top = "%IF"
            · rw [if_pos h4] at hok2
              exact ih rest hok2 t htl
            · rw [if_neg h4] at hok2
              exact absurd hok2 (by simp)
        · by_cases h3 : u = "%THEN"
          · rw [if_neg h1, if_neg h2, if_pos h3] at hok
            cases stack with
            | nil => exact absurd hok (by simp)
            | cons top rest =>
              have hok2 : (if top = "%IF" then validateSyntaxLoop ts (top :: rest)
                  else (Except.error "%THEN without matching %IF" : Except String Unit)) =
                  .ok () := hok
              by_cases h4 : top = "%IF"
              · rw [if_pos h4] at hok2
                exact ih (top :: rest) hok2 t htl
              · rw [if_neg h4] at hok2
                exact absurd hok2 (by simp)
          · by_cases h4 : strStartsWithChar u '%' ∧ ¬ isValidDirective u
            · rw [if_neg h1, if_neg h2, if_neg h3, if_pos h4] at hok
              exact absurd hok (by simp)
            · rw [if_neg h1, if_neg h2, if_neg h3, if_neg h4] at hok
              exact ih stack hok t htl

/-! ## Claim theorems: conditional validator allow-list -/

/-- C10 counterexample: `"%if"` starts with `%` and is not an element of the
hardcoded allow-list, yet `validate_syntax` accepts it — the allow-list is
consulted only after uppercasing. -/
theorem validateSyntax_lowercase_unknown_to_list :
    validateSyntax ["%if"] = .ok () ∧
    strStartsWithChar "%if" '%' = true ∧
    (["%IF", "%ENDIF", "%ELSE", "%THEN", "%DO", "%END", "%SWITCH", "%CASE",
      "%DEFAULT"].contains "%if") = false := ⟨rfl, rfl, rfl⟩

/-- C10 (amended): `validate_syntax` rejects any token that starts with `%`
and whose uppercased form is not in the allow-list (i.e. fails
`is_valid_directive`, which matches case-insensitively), with an
"Invalid directive" error; in particular a sequence containing `%MACRO`,
`%INCLUDE`, `%COMMENT` or `%EVALUATE` — directives the lexer's
classification table recognizes — always fails, even with balanced
`%IF`/`%ENDIF` nesting. -/
theorem validateSyntax_rejects_unknown_directives :
    (∀ t, strStartsWithChar t '%' = true → isValidDirective t = false →
      validateSyntax [t] = .error ("Invalid directive: " ++ t)) ∧
    (∀ ts t, t ∈ ts → strStartsWithChar t '%' = true → isValidDirective t = false →
      ∃ e, validateSyntax ts = .error e) ∧
    validateSyntax ["%IF", "%MACRO", "%ENDIF"] = .error "Invalid directive: %MACRO" ∧
    validateSyntax ["%IF", "%INCLUDE", "%ENDIF"] = .error "Invalid directive: %INCLUDE" ∧
    validateSyntax ["%IF", "%COMMENT", "%ENDIF"] = .error "Invalid directive: %COMMENT" ∧
    validateSyntax ["%IF", "%EVALUATE", "%ENDIF"] = .error "Invalid directive: %EVALUATE" ∧
    getDirectiveCategory "%MACRO" = .MacroHandling ∧
    getDirectiveCategory "%INCLUDE" = .MacroHandling ∧
    getDirectiveCategory "%COMMENT" = .Comment ∧
    getDirectiveCategory "%EVALUATE" = .Conditional := by
  refine ⟨validateSyntax_single_invalid, ?_, rfl, rfl, rfl, rfl, rfl, rfl, rfl, rfl⟩
  intro ts t hmem hs hv
  cases h : validateSyntax ts with
  | error e => exact ⟨e, rfl⟩
  | ok u =>
    cases u
    exfalso
    by_cases hne : ts.isEmpty = true
    · rw [List.isEmpty_iff.mp hne] at hmem
      simp at hmem
    · unfold validateSyntax at h
      rw [if_neg hne] at h
      exact validateSyntaxLoop_ok_all ts [] h t hmem ⟨hs, hv⟩

/-- Witness for C10 (amended) at the concrete token `"%XYZ"`. -/
theorem validateSyntax_rejects_unknown_directives_w :
    validateSyntax ["%XYZ"] = .error ("Invalid directive: " ++ "%XYZ") :=
  validateSyntax_rejects_unknown_directives.1 "%XYZ" (by decide) (by decide)

/-! ## Helper lemmas: tokenizer uppercasing invariant -/

/-- Uppercasing a character never yields a lowercase letter. -/
theorem toUpper_isLower_false (c : Char) : (Char.toUpper c).isLower = false := by
  unfold Char.toUpper
  by_cases h : c.toNat ≥ 97 ∧ c.toNat ≤ 122
  · rw [if_pos h]
    have hval : (Char.ofNat (c.toNat - 32)).val.toBitVec.toNat = c.toNat - 32 := by
      have hvalid : (c.toNat - 32).isValidChar := Or.inl (by omega)
      rw [Char.ofNat, dif_pos hvalid]
      rfl
    rw [Char.isLower]
    simp only [ge_iff_le, decide_eq_true_eq, Bool.and_eq_false_iff, decide_eq_false_iff_not,
      UInt32.le_def, BitVec.le_def]
    have h97 : (UInt32.toBitVec 97).toNat = 97 := rfl
    have h122 : (UInt32.toBitVec 122).toNat = 122 := rfl
    rw [h97, h122, hval]
    omega
  · rw [if_neg h]
    rw [Char.isLower]
    simp only [ge_iff_le, decide_eq_true_eq, Bool.and_eq_false_iff, decide_eq_false_iff_not,
      UInt32.le_def, BitVec.le_def]
    have h97 : (UInt32.toBitVec 97).toNat = 97 := rfl
    have h122 : (UInt32.toBitVec 122).toNat = 122 := rfl
    have hc : c.val.toBitVec.toNat = c.toNat := rfl
    rw [h97, h122, hc]
    omega

/-- The model of `to_uppercase` produces text with no lowercase letter. -/
theorem strToUpper_noLower (s : String) : ∀ c ∈ (strToUpper s).data, c.isLower = false := by
  intro c hc
  rw [show (strToUpper s).data = s.data.map Char.toUpper from rfl] at hc
  obtain ⟨d, -, rfl⟩ := List.mem_map.mp hc
  exact toUpper_isLower_false d

/-- `finalize_token` (the `token.rs` version) preserves the directive
uppercase invariant for any non-`Directive` category. -/
theorem finalizeToken_upperInv (cur : String) (tokens : List Token) (cat : TokenCategory)
    (hcat : cat ≠ TokenCategory.Directive) (hP : directiveValuesUppercase tokens) :
    directiveValuesUppercase (finalizeToken cur tokens cat) := by
  unfold finalizeToken
  by_cases he : cur.data.isEmpty = true
  · rw [if_pos he]; exact hP
  · rw [if_neg he]
    intro t ht hdir
    rcases List.mem_append.mp ht with h | h
    · exact hP t h hdir
    · rw [List.mem_singleton.mp h] at hdir
      exact absurd hdir hcat

/-- The uppercasing `finalize_token` of `special_char.rs` preserves the
invariant (it only adds `Identifier` tokens). -/
theorem finalizeTokenUppercased_upperInv (cur : String) (tokens : List Token)
    (hP : directiveValuesUppercase tokens) :
    directiveValuesUppercase (finalizeTokenUppercased cur tokens) := by
  unfold finalizeTokenUppercased
  by_cases he : cur.data.isEmpty = true
  · rw [if_pos he]; exact hP
  · rw [if_neg he]
    intro t ht hdir
    rcases List.mem_append.mp ht with h | h
    · exact hP t h hdir
    · rw [List.mem_singleton.mp h] at hdir
      exact absurd hdir (by simp)

/-- `handle_special_characters` preserves the invariant (it adds an
`Identifier` token and an `Operator`/`Separator`/`Unknown` token). -/
theorem handleSpecialCharacters_upperInv (c : Char) (cur : String) (tokens : List Token)
    (hP : directiveValuesUppercase tokens) :
    directiveValuesUppercase (handleSpecialCharacters c cur tokens) := by
  unfold handleSpecialCharacters
  intro t ht hdir
  rcases List.mem_append.mp ht with h | h
  · exact finalizeTokenUppercased_upperInv cur tokens hP t h hdir
  · rw [List.mem_singleton.mp h] at hdir
    revert hdir
    split <;> simp
    split <;> simp

/-- Appending a `Literal` token preserves the directive uppercase
invariant. -/
theorem append_literal_upperInv (tokens : List Token) (v : String)
    (hP : directiveValuesUppercase tokens) :
    directiveValuesUppercase (tokens ++ [⟨v, .Literal, none⟩]) := by
  intro t ht hdir
  rcases List.mem_append.mp ht with h | h
  · exact hP t h hdir
  · rw [List.mem_singleton.mp h] at hdir
    exact absurd hdir (by simp)

/-- The string-literal scan loop preserves the invariant (it only adds
`Literal` tokens). -/
theorem handleStringLiteralLoop_upperInv (cs : List Char) (tokens : List Token)
    (cur : String) (hP : directiveValuesUppercase tokens) :
    directiveValuesUppercase (handleStringLiteralLoop cs tokens cur).2.1 := by
  revert hP
  induction cs, tokens, cur using handleStringLiteralLoop.induct with
  | case1 tokens cur =>
    intro hP
    exact append_literal_upperInv tokens cur hP
  | case2 tokens cur rest2 ih =>
    intro hP
    rw [show handleStringLiteralLoop (quoteChar :: quoteChar :: rest2) tokens cur =
      handleStringLiteralLoop rest2 tokens ((cur.push quoteChar).push quoteChar) from rfl]
    exact ih hP
  | case3 tokens cur r rest2 h =>
    intro hP
    have h2 : handleStringLiteralLoop (quoteChar :: r :: rest2) tokens cur =
        (if r = quoteChar then
          handleStringLiteralLoop rest2 tokens ((cur.push quoteChar).push quoteChar)
        else (r :: rest2, tokens ++ [⟨cur.push quoteChar, .Literal, none⟩], "")) := rfl
    rw [h2, if_neg h]
    exact append_literal_upperInv tokens (cur.push quoteChar) hP
  | case4 tokens cur =>
    intro hP
    exact append_literal_upperInv tokens (cur.push quoteChar) hP
  | case5 c rest tokens cur h ih =>
    intro hP
    cases rest with
    | nil =>
      have h2 : handleStringLiteralLoop [c] tokens cur =
          (if c = quoteChar then ([], tokens ++ [⟨cur.push quoteChar, .Literal, none⟩], "")
          else handleStringLiteralLoop [] tokens (cur.push c)) := rfl
      rw [h2, if_neg h]
      exact ih hP
    | cons r rest2 =>
      have h2 : handleStringLiteralLoop (c :: r :: rest2) tokens cur =
          (if c = quoteChar then
            (if r = quoteChar then
              handleStringLiteralLoop rest2 tokens ((cur.push quoteChar).push quoteChar)
            else (r :: rest2, tokens ++ [⟨cur.push quoteChar, .Literal, none⟩], ""))
          else handleStringLiteralLoop (r :: rest2) tokens (cur.push c)) := rfl
      rw [h2, if_neg h]
      exact ih hP

/-- `handle_string_literal` preserves the invariant. -/
theorem handleStringLiteral_upperInv (cs : List Char) (tokens : List Token)
    (cur : String) (hP : directiveValuesUppercase tokens) :
    directiveValuesUppercase (handleStringLiteral cs tokens cur).2.1 := by
  cases cs with
  | nil => exact hP
  | cons c rest =>
    have h2 : handleStringLiteral (c :: rest) tokens cur =
        (if c = quoteChar then
          handleStringLiteralLoop rest tokens (cur.push quoteChar)
        else (rest, tokens, cur)) := rfl
    rw [h2]
    by_cases hc : c = quoteChar
    · rw [if_pos hc]
      exact handleStringLiteralLoop_upperInv rest tokens (cur.push quoteChar) hP
    · rw [if_neg hc]
      exact hP

/-- `handle_directive` preserves the invariant: the `Directive` token it adds
carries uppercased text. -/
theorem handleDirective_upperInv (c : Char) (chars : List Char) (cur : String)
    (tokens : List Token) (hP : directiveValuesUppercase tokens) :
    directiveValuesUppercase (handleDirective c chars cur tokens).2 := by
  unfold handleDirective
  intro t ht hdir
  rcases List.mem_append.mp ht with h | h
  · exact hP t h hdir
  · rw [List.mem_singleton.mp h]
    exact strToUpper_noLower (handleDirectiveLoop chars (cur.push c)).2

/-- The fuelled tokenizer loop preserves the invariant. -/
theorem tokenizePliFuel_upperInv : ∀ (fuel : Nat) (cs : List Char)
    (tokens : List Token) (cur : String), directiveValuesUppercase tokens →
    directiveValuesUppercase (tokenizePliFuel fuel cs tokens cur) := by
  intro fuel
  induction fuel with
  | zero =>
    intro cs tokens cur hP
    exact finalizeToken_upperInv cur tokens .Identifier (by simp) hP
  | succ fuel ih =>
    intro cs tokens cur hP
    cases cs with
    | nil => exact finalizeToken_upperInv cur tokens .Identifier (by simp) hP
    | cons c rest =>
      have h2 : tokenizePliFuel (fuel + 1) (c :: rest) tokens cur =
          (if c.isWhitespace then
            tokenizePliFuel fuel rest (finalizeToken cur tokens .Identifier) ""
          else if c = quoteChar then
            tokenizePliFuel fuel (handleStringLiteral rest tokens cur).1
              (handleStringLiteral rest tokens cur).2.1
              (handleStringLiteral rest tokens cur).2.2
          else if c = '%' then
            tokenizePliFuel fuel (handleDirective c rest cur tokens).1
              (handleDirective c rest cur tokens).2 ""
          else if c = '=' ∨ c = '#' ∨ c = '*' ∨ c = ';' then
            tokenizePliFuel fuel rest (handleSpecialCharacters c cur tokens) ""
          else if c.isAlphanum ∨ c = '_' then
            tokenizePliFuel fuel rest tokens (cur.push c)
          else
            tokenizePliFuel fuel rest (handleSpecialCharacters c cur tokens) "") := rfl
      rw [h2]
      by_cases h1 : c.isWhitespace = true
      · rw [if_pos h1]
        exact ih rest _ "" (finalizeToken_upperInv cur tokens .Identifier (by simp) hP)
      · rw [if_neg h1]
        by_cases hq : c = quoteChar
        · rw [if_pos hq]
          exact ih _ _ _ (handleStringLiteral_upperInv rest tokens cur hP)
        · rw [if_neg hq]
          by_cases hd : c = '%'
          · rw [if_pos hd]
            exact ih _ _ "" (handleDirective_upperInv c rest cur tokens hP)
          · rw [if_neg hd]
            by_cases hs : c = '=' ∨ c = '#' ∨ c = '*' ∨ c = ';'
            · rw [if_pos hs]
              exact ih rest _ "" (handleSpecialCharacters_upperInv c cur tokens hP)
            · rw [if_neg hs]
              by_cases ha : c.isAlphanum = true ∨ c = '_'
              · rw [if_pos ha]
                exact ih rest tokens (cur.push c) hP
              · rw [if_neg ha]
                exact ih rest _ "" (handleSpecialCharacters_upperInv c cur tokens hP)

/-- Every `Directive` token produced by `tokenize_pli` has uppercased text. -/
theorem tokenizePli_upperInv (input : String) :
    directiveValuesUppercase (tokenizePli input) := by
  exact tokenizePliFuel_upperInv (input.data.length + 1) input.data [] ""
    (by intro t ht; simp at ht)

/-! ## Claim theorems: tokenizer -/

/-- C1: evaluation of `tokenize_pli` at the input `"'unmatched string"`.  The
main loop consumes the opening quote, then `handle_string_literal` consumes
the following character while looking for that same quote and returns
without scanning; the outcome is two `Identifier` tokens `"nmatched"` and
`"string"` — not the single `Literal` token the claim (and the module's own
tests) expect — and `has_tokenizer_error` consequently reports `false`. -/
theorem tokenizePli_unterminated_literal_lost :
    tokenizePli (quoteStr ++ "unmatched string") =
      [⟨"nmatched", .Identifier, none⟩, ⟨"string", .Identifier, none⟩] ∧
    hasTokenizerError (tokenizePli (quoteStr ++ "unmatched string")) = false ∧
    tokenizePli (quoteStr ++ "unmatched string") ≠
      [⟨quoteStr ++ "unmatched string", .Literal, none⟩] := by
  refine ⟨rfl, rfl, fun h => ?_⟩
  rw [show tokenizePli (quoteStr ++ "unmatched string") =
    [⟨"nmatched", .Identifier, none⟩, ⟨"string", .Identifier, none⟩] from rfl] at h
  simp at h

/-- C7 counterexample: the `Identifier` token produced for the input `"ab"`
keeps its lowercase text, and the lowercase line tokenizes differently from
its uppercase equivalent. -/
theorem tokenizePli_identifier_keeps_case :
    tokenizePli "ab" = [⟨"ab", .Identifier, none⟩] ∧
    ('a' : Char).isLower = true ∧
    tokenizePli "ab" ≠ tokenizePli "AB" := by
  refine ⟨rfl, rfl, fun h => ?_⟩
  rw [show tokenizePli "ab" = [⟨"ab", .Identifier, none⟩] from rfl,
    show tokenizePli "AB" = [⟨"AB", .Identifier, none⟩] from rfl] at h
  exact absurd h (by decide)

/-- C7 (amended): every `Directive` token produced by `tokenize_pli` has
uppercased text (no lowercase letter), so an all-lowercase line of
directives tokenizes identically to its uppercase equivalent; `Identifier`
tokens are uppercased only on the special-character flush path (e.g.
`"ab;"`), while identifiers finalized at whitespace or end of input keep
their original case (e.g. `"ab"`). -/
theorem tokenizePli_directive_uppercasing :
    (∀ input, ∀ t ∈ tokenizePli input, t.category = TokenCategory.Directive →
      ∀ c ∈ t.value.data, c.isLower = false) ∧
    tokenizePli "%if %then" = tokenizePli "%IF %THEN" ∧
    tokenizePli "ab;" = [⟨"AB", .Identifier, none⟩, ⟨";", .Separator, none⟩] ∧
    tokenizePli "ab" = [⟨"ab", .Identifier, none⟩] :=
  ⟨fun input => tokenizePli_upperInv input, rfl, rfl, rfl⟩

/-- Witness for C7 (amended): the `Directive` token `%IF` produced from the
lowercase input `"%if"` carries no lowercase letter. -/
theorem tokenizePli_directive_uppercasing_w :
    (⟨"%IF", .Directive, some .ControlFlow⟩ : Token) ∈ tokenizePli "%if" ∧
    ∀ c ∈ (("%IF" : String)).data, c.isLower = false :=
  ⟨by decide,
    tokenizePli_directive_uppercasing.1 "%if" ⟨"%IF", .Directive, some .ControlFlow⟩
      (by decide) rfl⟩

/-- C9: in the string-literal scanner, a quote followed by another quote is
an escaped quote — both are appended and scanning continues — while a lone
quote terminates the literal (included in the text); scanning `"'a''b'"`
yields the single `Literal` token `"'a''b'"`. -/
theorem handleStringLiteral_escaped_quotes :
    (∀ (cs : List Char) (tokens : List Token) (cur : String),
      handleStringLiteralLoop (quoteChar :: quoteChar :: cs) tokens cur =
        handleStringLiteralLoop cs tokens ((cur.push quoteChar).push quoteChar)) ∧
    (∀ (cs : List Char) (tokens : List Token) (cur : String),
      cs.head? ≠ some quoteChar →
      handleStringLiteralLoop (quoteChar :: cs) tokens cur =
        (cs, tokens ++ [⟨cur.push quoteChar, .Literal, none⟩], "")) ∧
    handleStringLiteralLoop ("a" ++ quoteStr ++ quoteStr ++ "b" ++ quoteStr).data []
      quoteStr =
      ([], [⟨quoteStr ++ "a" ++ quoteStr ++ quoteStr ++ "b" ++ quoteStr, .Literal, none⟩],
        "") ∧
    handleStringLiteral (quoteStr ++ "a" ++ quoteStr ++ quoteStr ++ "b" ++ quoteStr).data
      [] "" =
      ([], [⟨quoteStr ++ "a" ++ quoteStr ++ quoteStr ++ "b" ++ quoteStr, .Literal, none⟩],
        "") := by
  refine ⟨fun cs tokens cur => rfl, fun cs tokens cur h => ?_, rfl, rfl⟩
  cases cs with
  | nil => rfl
  | cons c cs2 =>
    have hc : ¬ c = quoteChar := by simpa using h
    have h2 : handleStringLiteralLoop (quoteChar :: c :: cs2) tokens cur =
        (if c = quoteChar then
          handleStringLiteralLoop cs2 tokens ((cur.push quoteChar).push quoteChar)
        else (c :: cs2, tokens ++ [⟨cur.push quoteChar, .Literal, none⟩], "")) := rfl
    rw [h2, if_neg hc]

/-- Witness for C9 at the concrete remainder `['b']`. -/
theorem handleStringLiteral_escaped_quotes_w :
    handleStringLiteralLoop (quoteChar :: ['b']) [] quoteStr =
      (['b'], [⟨quoteStr.push quoteChar, .Literal, none⟩], "") :=
  handleStringLiteral_escaped_quotes.2.1 ['b'] [] quoteStr (by decide)
